import Mathlib

/-!
Verification of the script/native bridge core described by the design
document accompanying the `kraken` bridge sources (the visible fragment is
`src/bridge/core/html/html_html_element.h`, declaring `HTMLHtmlElement` with
`DEFINE_WRAPPERTYPEINFO()` and a `Document&` constructor).  The machinery the
claims are about — Element Registry, Wrapper Type Info, Binding Layer handle
table, Bridge Channel, and the Node tree mutation operations — is not part of
the visible sources, so each of those components is modelled from the spec,
as noted on each definition.

The file is organised as definitions first (data model and operations),
followed by the theorems settling the claims.
-/

namespace Bridge

/-- Error taxonomy of the bridge core.  Modelled from the spec: §7 lists
TypeMismatch, StaleHandle, CycleRejected and ChannelOverflow as error
conditions; `notFound` models the failure of `removeChild`/`insertBefore`
when the reference child is absent (the spec leaves this case implicit).
UnknownTag is intentionally absent: §4.1 makes unknown-tag creation a
non-failure fallback. -/
inductive DomError where
  | typeMismatch
  | staleHandle
  | cycleRejected
  | notFound
  | channelOverflow
deriving DecidableEq, Repr

/-! ## Wrapper Type Info (§4.2)

Modelled from the spec: every concrete Node/Element subclass carries a
distinct, statically-assigned type tag created once per class, compared by
identity.  The visible fragment shows the per-class declaration point:
`DEFINE_WRAPPERTYPEINFO()` inside `class HTMLHtmlElement : public HTMLElement`.
The concrete classes modelled here are the ones the spec and the fragment
name: the generic Element, HTMLElement, HTMLDivElement (spec §8 example) and
HTMLHtmlElement (the fragment). -/

/-- Closed set of concrete wrappable classes in the model. -/
inductive ConcreteClass where
  | element
  | htmlElement
  | htmlDivElement
  | htmlHtmlElement
deriving DecidableEq, Repr

/-- Modelled from the spec: per-class static descriptor with a unique type
tag and a human-readable class name (§3 "Wrapper Type Info record"). -/
structure WrapperTypeInfo where
  typeTag : Nat
  className : String
deriving DecidableEq, Repr

/-- Modelled from the spec: the statically-assigned per-class descriptor,
established once per class at class definition (`DEFINE_WRAPPERTYPEINFO()`),
never per instance. -/
def wrapperTypeInfoOf : ConcreteClass → WrapperTypeInfo
  | .element => ⟨0, "Element"⟩
  | .htmlElement => ⟨1, "HTMLElement"⟩
  | .htmlDivElement => ⟨2, "HTMLDivElement"⟩
  | .htmlHtmlElement => ⟨3, "HTMLHtmlElement"⟩

/-- A native object instance: its concrete class plus an instance identity.
The class (hence the attached Wrapper Type Info) is fixed at construction and
immutable for the object's lifetime, which the functional representation
enforces. -/
structure Instance where
  klass : ConcreteClass
  objId : Nat
deriving DecidableEq, Repr

/-- The type tag carried by an instance: the tag of its class's Wrapper Type
Info record, shared by all instances of the class. -/
def typeTagOf (i : Instance) : Nat :=
  (wrapperTypeInfoOf i.klass).typeTag

/-- Modelled from the spec: `isA(object, tag)` is an O(1) identity comparison
of type tags, with no class-hierarchy traversal (§4.2). -/
def isA (i : Instance) (tag : Nat) : Bool :=
  typeTagOf i == tag

/-! ## Element Registry (§4.1) and the Element data model (§3)

Modelled from the spec: `create(tagName, document)` constructs the Element
subclass registered for `tagName`, parented logically to `document`;
unregistered names fall back to a generic Element and never fail.  The
registry is the process-wide read-only table populated at startup; the model
registers the classes the spec and the fragment name ("html" from the
`HTMLHtmlElement` fragment, "div" from the spec's §8 example). -/

/-- Modelled from the spec: an Element is a Node with an immutable tag name,
an attribute map (keys unique, insertion order preserved), an owning
document reference, and its concrete class (carrying the Wrapper Type Info).
Documents are identified by integer ids. -/
structure Element where
  klass : ConcreteClass
  tagName : String
  ownerDoc : Nat
  attrs : List (String × String)
deriving DecidableEq, Repr

/-- The constructor of the fragment's class: `explicit HTMLHtmlElement(Document&)`
produces an `<html>` element owned by the given document. -/
def mkHTMLHtmlElement (doc : Nat) : Element :=
  ⟨.htmlHtmlElement, "html", doc, []⟩

/-- Constructor for the `<div>` element class named by the spec's §8 example. -/
def mkHTMLDivElement (doc : Nat) : Element :=
  ⟨.htmlDivElement, "div", doc, []⟩

/-- Modelled from the spec: the generic HTMLElement construction used both
directly and as the unknown-tag fallback; it keeps the requested tag name. -/
def mkHTMLElement (tag : String) (doc : Nat) : Element :=
  ⟨.htmlElement, tag, doc, []⟩

/-- Modelled from the spec: the static process-wide tag→constructor mapping,
populated at process init and read-only thereafter. -/
def elementRegistry : List (String × (Nat → Element)) :=
  [("html", mkHTMLHtmlElement), ("div", mkHTMLDivElement)]

/-- Look up the registered constructor for a tag name. -/
def registryLookup (tag : String) : Option (Nat → Element) :=
  (elementRegistry.find? (fun e => e.1 == tag)).map (fun e => e.2)

/-- Modelled from the spec: `create(tagName, document)` dispatches through
the registry and falls back to a generic Element for unregistered tags,
never failing (the return type is `Element`, not an error sum). -/
def create (tag : String) (doc : Nat) : Element :=
  match registryLookup tag with
  | some ctor => ctor doc
  | none => mkHTMLElement tag doc

/-! ## Attribute storage (§4.3)

Modelled from the spec: attribute get/set is a plain keyed lookup; keys are
unique, set overwrites in place or appends. -/

/-- Update an attribute association list: overwrite the existing key or
append a new pair. -/
def setAttrList : List (String × String) → String → String → List (String × String)
  | [], n, v => [(n, v)]
  | (k, w) :: rest, n, v =>
      if k == n then (k, v) :: rest else (k, w) :: setAttrList rest n v

/-- Modelled from the spec: attribute set on an Element (keyed update). -/
def setAttribute (e : Element) (n v : String) : Element :=
  { e with attrs := setAttrList e.attrs n v }

/-- Modelled from the spec: attribute get on an Element (keyed lookup). -/
def getAttribute (e : Element) (n : String) : Option String :=
  (e.attrs.find? (fun kv => kv.1 == n)).map (fun kv => kv.2)

/-- An attribute mutation, for stating behavioural equivalence over whole
operation sequences. -/
inductive AttrOp where
  | set (n v : String)
deriving DecidableEq, Repr

/-- Apply one attribute operation. -/
def applyAttrOp (e : Element) : AttrOp → Element
  | .set n v => setAttribute e n v

/-- Apply a sequence of attribute operations left to right. -/
def runAttrOps (e : Element) (ops : List AttrOp) : Element :=
  ops.foldl applyAttrOp e

/-- Attribute-map evolution under a sequence of attribute operations,
independent of the Element carrying the map. -/
def runAttrList (l : List (String × String)) (ops : List AttrOp) :
    List (String × String) :=
  ops.foldl (fun acc op => match op with | .set n v => setAttrList acc n v) l

/-! ## Node tree and mutation operations (§3, §4.3)

Modelled from the spec: Nodes are identified by stable integer ids; a Node
owns an ordered sequence of children and a weak parent back-reference.
`appendChild`/`removeChild`/`insertBefore` validate that the mutation does
not create a cycle (CycleRejected), update parent/child links, and on
failure leave the tree exactly as it was.  Because the spec's invariant
gives every Node at most one parent, inserting an already-parented node
first detaches it from its old parent. -/

/-- Tree state: children sequences and parent back-references, indexed by
node id.  `bound` is the fuel for ancestor-chain walks (an upper bound on
tree depth, conceptually the number of nodes). -/
structure Tree where
  childrenOf : Nat → List Nat
  parentOf : Nat → Option Nat
  bound : Nat

/-- Walk at most `fuel` steps up the parent chain from `a`; true if `x`
occurs strictly above `a`. -/
def hasAncestor (t : Tree) : Nat → Nat → Nat → Bool
  | 0, _, _ => false
  | fuel + 1, a, x =>
      match t.parentOf a with
      | none => false
      | some p => p == x || hasAncestor t fuel p x

/-- Modelled from the spec: `x` is a (proper) ancestor of `a` in `t`. -/
def isAncestor (t : Tree) (x a : Nat) : Bool :=
  hasAncestor t t.bound a x

/-- Replace one node's child sequence. -/
def setChildren (t : Tree) (a : Nat) (l : List Nat) : Tree :=
  { t with childrenOf := fun n => if n = a then l else t.childrenOf n }

/-- Replace one node's parent back-reference. -/
def setParent (t : Tree) (b : Nat) (v : Option Nat) : Tree :=
  { t with parentOf := fun n => if n = b then v else t.parentOf n }

/-- Detach a node from its current parent, if any: remove it from the old
parent's children and clear its parent back-reference. -/
def detach (t : Tree) (b : Nat) : Tree :=
  match t.parentOf b with
  | none => t
  | some p => setParent (setChildren t p ((t.childrenOf p).erase b)) b none

/-- Modelled from the spec: `appendChild` rejects cycles (a node may not
become its own descendant), otherwise detaches the child from any previous
parent and appends it to the target's child sequence, setting the parent
back-reference. -/
def appendChild (t : Tree) (a b : Nat) : Except DomError Tree :=
  if a == b || isAncestor t b a then .error .cycleRejected
  else
    let t1 := detach t b
    .ok (setParent (setChildren t1 a (List.append (t1.childrenOf a) [b])) b (some a))

/-- Modelled from the spec: `removeChild` removes the child from the
parent's ordered sequence and severs the child's parent back-reference;
it fails (leaving the tree unchanged) when the node is not a child. -/
def removeChild (t : Tree) (a b : Nat) : Except DomError Tree :=
  if (t.childrenOf a).contains b then
    .ok (setParent (setChildren t a ((t.childrenOf a).erase b)) b none)
  else .error .notFound

/-- Insert `b` immediately before the first occurrence of `ref`; appends if
`ref` is absent. -/
def insertBeforeList : List Nat → Nat → Nat → List Nat
  | [], _, b => [b]
  | x :: xs, ref, b =>
      if x == ref then b :: x :: xs else x :: insertBeforeList xs ref b

/-- Modelled from the spec: `insertBefore` rejects cycles, requires the
reference node to be a current child, detaches the inserted node from any
previous parent and places it immediately before the reference child.
Inserting a node before itself is a no-op. -/
def insertBefore (t : Tree) (a b ref : Nat) : Except DomError Tree :=
  if a == b || isAncestor t b a then .error .cycleRejected
  else if !(t.childrenOf a).contains ref then .error .notFound
  else if b == ref then .ok t
  else
    let t1 := detach t b
    .ok (setParent (setChildren t1 a (insertBeforeList (t1.childrenOf a) ref b)) b (some a))

/-- A tree mutation operation. -/
inductive TreeOp where
  | append (a b : Nat)
  | remove (a b : Nat)
  | insert (a b ref : Nat)
deriving DecidableEq, Repr

/-- Apply one tree operation; per §7, a failed (recoverable) operation
leaves the tree exactly as before the call. -/
def applyTreeOp (t : Tree) : TreeOp → Tree
  | .append a b =>
      match appendChild t a b with
      | .ok t1 => t1
      | .error _ => t
  | .remove a b =>
      match removeChild t a b with
      | .ok t1 => t1
      | .error _ => t
  | .insert a b ref =>
      match insertBefore t a b ref with
      | .ok t1 => t1
      | .error _ => t

/-- Apply a sequence of tree operations left to right. -/
def runTree (t : Tree) (ops : List TreeOp) : Tree :=
  ops.foldl applyTreeOp t

/-- Tree well-formedness: the children sequences and parent back-references
agree, and no child sequence repeats a node (§3 invariants). -/
def WF (t : Tree) : Prop :=
  (∀ p b, b ∈ t.childrenOf p ↔ t.parentOf b = some p) ∧
  (∀ p, (t.childrenOf p).Nodup)

/-! ## Bridge Channel (§4.5)

Modelled from the spec: a single-producer single-consumer FIFO; `enqueue`
appends a message, `drain` returns everything enqueued since the last drain,
in order, and clears the channel.  The implementation-defined backpressure
limit is not modelled: the claims concern normal (non-overflow) operation. -/

/-- Kinds of tree mutations carried by the channel (§3 "Mutation message":
kind, target node id, payload). -/
inductive MsgKind where
  | create
  | insert
  | remove
  | setAttribute
deriving DecidableEq, Repr

/-- Modelled from the spec: a tagged record describing one tree operation. -/
structure MutationMsg where
  kind : MsgKind
  target : Nat
  payload : List String
deriving DecidableEq, Repr

/-- Channel state: the ordered buffer of not-yet-drained messages. -/
def Channel : Type := List MutationMsg

/-- Modelled from the spec: non-blocking FIFO append on the producing side. -/
def enqueue (ch : Channel) (m : MutationMsg) : Channel :=
  List.append ch [m]

/-- Modelled from the spec: returns all messages enqueued since the last
drain, in order, then clears the channel. -/
def drain (ch : Channel) : List MutationMsg × Channel :=
  (ch, ([] : List MutationMsg))

/-- Enqueue a whole sequence of messages in order. -/
def enqueueAll (ch : Channel) (msgs : List MutationMsg) : Channel :=
  msgs.foldl enqueue ch

/-! ## Binding Layer handle table (§4.4)

Modelled from the spec: the handle table maps opaque script-visible handles
to (native pointer, type tag, reference count).  `wrap` returns the
existing handle when one is live, otherwise allocates a fresh entry with
count 1; `unwrap` validates the tag and returns the pointer or fails with
TypeMismatch/StaleHandle; `retain`/`release` adjust the count, removal at
zero. -/

/-- A handle table entry: native pointer, Wrapper Type Info tag, reference
count. -/
structure HEntry where
  ptr : Nat
  tag : Nat
  refCount : Nat
deriving DecidableEq, Repr

/-- The Binding Layer's registry of live handle↔native-pointer pairs. -/
structure HandleTable where
  entries : List (Nat × HEntry)
  nextHandle : Nat
deriving DecidableEq, Repr

/-- The empty handle table. -/
def emptyTable : HandleTable :=
  ⟨[], 0⟩

/-- The live entry for a handle, if any. -/
def entryFor (t : HandleTable) (h : Nat) : Option HEntry :=
  (t.entries.find? (fun e => e.1 == h)).map (fun e => e.2)

/-- The live handle for a native pointer, if any. -/
def handleFor (t : HandleTable) (p : Nat) : Option Nat :=
  (t.entries.find? (fun e => e.2.ptr == p)).map (fun e => e.1)

/-- Modelled from the spec: `wrap(node)` returns the existing handle if one
is live for the node, otherwise allocates a new entry with reference count
1 and the node's type tag. -/
def wrap (t : HandleTable) (p tag : Nat) : Nat × HandleTable :=
  match handleFor t p with
  | some h => (h, t)
  | none =>
      (t.nextHandle,
       ⟨List.append t.entries [(t.nextHandle, ⟨p, tag, 1⟩)], t.nextHandle + 1⟩)

/-- Modelled from the spec: `unwrap(handle, expectedTag)` validates the tag
via the Wrapper Type Info identity comparison and returns the native
pointer; a dead handle fails with StaleHandle, a live handle with the wrong
tag fails with TypeMismatch and no cast (pointer return) is performed. -/
def unwrap (t : HandleTable) (h expectedTag : Nat) : Except DomError Nat :=
  match entryFor t h with
  | none => .error .staleHandle
  | some e => if e.tag == expectedTag then .ok e.ptr else .error .typeMismatch

/-- Modelled from the spec: `retain(handle)` increments the reference count
of a live entry and fails with StaleHandle (table unchanged) otherwise. -/
def retain (t : HandleTable) (h : Nat) : Except DomError HandleTable :=
  match entryFor t h with
  | none => .error .staleHandle
  | some _ =>
      .ok ⟨t.entries.map
             (fun e => if e.1 == h then (e.1, ⟨e.2.ptr, e.2.tag, e.2.refCount + 1⟩) else e),
           t.nextHandle⟩

/-- Modelled from the spec: `release(handle)` decrements the reference count
of a live entry, removing the entry when the count reaches zero, and fails
with StaleHandle (table unchanged) otherwise. -/
def release (t : HandleTable) (h : Nat) : Except DomError HandleTable :=
  match entryFor t h with
  | none => .error .staleHandle
  | some e =>
      if e.refCount ≤ 1 then
        .ok ⟨t.entries.filter (fun x => x.1 != h), t.nextHandle⟩
      else
        .ok ⟨t.entries.map
               (fun x => if x.1 == h then (x.1, ⟨x.2.ptr, x.2.tag, x.2.refCount - 1⟩) else x),
             t.nextHandle⟩

/-- A Binding Layer operation on one fixed node: `wrap` the node, or
`retain`/`release` the node's current handle (if the entry is gone, the
previously returned handle is stale and the operation fails, leaving the
table unchanged, per §7). -/
inductive BindOp where
  | wrap
  | retain
  | release
deriving DecidableEq, Repr

/-- Apply one Binding Layer operation for the node with pointer `p` and type
tag `g`; failed stale operations leave the table unchanged. -/
def bindStep (p g : Nat) (t : HandleTable) : BindOp → HandleTable
  | .wrap => (wrap t p g).2
  | .retain =>
      match handleFor t p with
      | none => t
      | some h =>
          match retain t h with
          | .ok t1 => t1
          | .error _ => t
  | .release =>
      match handleFor t p with
      | none => t
      | some h =>
          match release t h with
          | .ok t1 => t1
          | .error _ => t

/-- Run a sequence of Binding Layer operations on one node. -/
def runBind (p g : Nat) (t : HandleTable) (ops : List BindOp) : HandleTable :=
  ops.foldl (bindStep p g) t

/-- The net reference count of a sequence of operations on one node, as the
operational semantics tracks it: a wrap while no entry is live creates
count 1 and a wrap while one is live returns the existing handle without
changing the count; retain/release on a live entry adjust by one;
retain/release presented with a stale handle fail and leave the count
unchanged. -/
def netStep (c : Nat) : BindOp → Nat
  | .wrap => if c = 0 then 1 else c
  | .retain => if c = 0 then 0 else c + 1
  | .release => c - 1

/-- Net reference count after a whole operation sequence, starting with no
live entry. -/
def netCountRun (ops : List BindOp) : Nat :=
  ops.foldl netStep 0

/-- The claim's literal arithmetic for the net reference count: 1 from the
initial wrap, +1 per retain, -1 per release. -/
def claimNetCount (ops : List BindOp) : Int :=
  (if ops.contains .wrap then 1 else 0)
    + (ops.count .retain : Int) - (ops.count .release : Int)

/-- Invariant relating a handle table that only ever served the node `p`
with tag `g` to a reference count: either the count is zero and the table
is empty, or the count is positive and the table holds exactly one entry,
for `p`, with that count. -/
def TableInv (p g : Nat) (t : HandleTable) (c : Nat) : Prop :=
  (c = 0 ∧ t.entries = []) ∨
  (0 < c ∧ ∃ h, t.entries = [(h, ⟨p, g, c⟩)])

/-! ## Theorems -/

theorem enqueueAll_eq (ch : Channel) (msgs : List MutationMsg) :
    enqueueAll ch msgs = List.append ch msgs := by
  induction msgs generalizing ch with
  | nil => simp [enqueueAll]
  | cons m rest ih =>
      simp only [enqueueAll, List.foldl_cons] at ih ⊢
      rw [ih]
      simp [enqueue]

/-- C4: For every Bridge Channel instance and every sequence of N enqueued
mutation messages with no intervening drain, a single drain returns exactly
those N messages in enqueue order and clears the channel, so an immediately
following drain returns the empty sequence; no message is returned by two
drains (the second drain's output is empty, disjoint from the first) and
none is dropped (the drain output is exactly the enqueued sequence). -/
theorem channel_fifo_drain (msgs : List MutationMsg) :
    (drain (enqueueAll ([] : Channel) msgs)).1 = msgs ∧
    (drain (enqueueAll ([] : Channel) msgs)).2 = ([] : List MutationMsg) ∧
    (drain (drain (enqueueAll ([] : Channel) msgs)).2).1 = ([] : List MutationMsg) := by
  refine ⟨?_, rfl, rfl⟩
  show enqueueAll ([] : Channel) msgs = msgs
  rw [enqueueAll_eq]
  simp

/-- C2: For every pair of instances of the same concrete Node/Element
subclass, their Wrapper Type Info type tags are identical, and for every
pair of instances of two distinct concrete classes the tags are unequal;
the tag is a function of the class alone (assigned once per class at class
definition, not per instance) and is immutable for the object's lifetime
(an instance's class, hence its tag, is fixed at construction). -/
theorem wrapper_type_tags_per_class (i j : Instance) :
    (i.klass = j.klass → typeTagOf i = typeTagOf j) ∧
    (i.klass ≠ j.klass → typeTagOf i ≠ typeTagOf j) ∧
    typeTagOf i = (wrapperTypeInfoOf i.klass).typeTag := by
  refine ⟨fun h => ?_, fun h => ?_, rfl⟩
  · simp [typeTagOf, h]
  · intro hc
    apply h
    revert hc
    cases hi : i.klass <;> cases hj : j.klass <;>
      simp [typeTagOf, wrapperTypeInfoOf, hi, hj]

/-- Witness for C2 at concrete instances: two `HTMLHtmlElement` instances
share their tag, and an `HTMLHtmlElement` instance and an `HTMLDivElement`
instance carry different tags. -/
theorem wrapper_type_tags_per_class_witness :
    typeTagOf ⟨.htmlHtmlElement, 0⟩ = typeTagOf ⟨.htmlHtmlElement, 5⟩ ∧
    typeTagOf ⟨.htmlHtmlElement, 0⟩ ≠ typeTagOf ⟨.htmlDivElement, 0⟩ :=
  ⟨(wrapper_type_tags_per_class ⟨.htmlHtmlElement, 0⟩ ⟨.htmlHtmlElement, 5⟩).1 (by decide),
   (wrapper_type_tags_per_class ⟨.htmlHtmlElement, 0⟩ ⟨.htmlDivElement, 0⟩).2.1 (by decide)⟩

/-- C1: `unwrap` returns the native pointer exactly when the handle has a
live entry whose tag is the expected tag; a handle with no live entry fails
with StaleHandle, and a live entry with a mismatching tag fails with
TypeMismatch, so no pointer is ever produced from a failed tag check (no
unchecked cast). -/
theorem unwrap_type_guard (t : HandleTable) (h g : Nat) :
    (entryFor t h = none → unwrap t h g = .error .staleHandle) ∧
    (∀ e, entryFor t h = some e → e.tag ≠ g → unwrap t h g = .error .typeMismatch) ∧
    (∀ e, entryFor t h = some e → e.tag = g → unwrap t h g = .ok e.ptr) ∧
    (∀ p, unwrap t h g = .ok p →
      ∃ e, entryFor t h = some e ∧ e.tag = g ∧ e.ptr = p) := by
  refine ⟨fun hn => ?_, fun e he hne => ?_, fun e he htag => ?_, fun p hp => ?_⟩
  · simp [unwrap, hn]
  · simp only [unwrap, he]
    simp [hne]
  · simp only [unwrap, he]
    simp [htag]
  · revert hp
    unfold unwrap
    cases he : entryFor t h with
    | none => intro hp; cases hp
    | some e =>
        by_cases htag : (e.tag == g) = true
        · simp only [htag, if_pos]
          intro hp
          cases hp
          exact ⟨e, rfl, by simpa using htag, rfl⟩
        · simp only [htag]
          intro hp
          simp at hp

/-- Witness for C1 on a concrete table with one live `HTMLHtmlElement`
entry: a dead handle yields StaleHandle, a wrong expected tag yields
TypeMismatch, and the matching tag yields the stored pointer. -/
theorem unwrap_type_guard_witness :
    unwrap ⟨[(0, ⟨100, 3, 1⟩)], 1⟩ 5 3 = .error .staleHandle ∧
    unwrap ⟨[(0, ⟨100, 3, 1⟩)], 1⟩ 0 2 = .error .typeMismatch ∧
    unwrap ⟨[(0, ⟨100, 3, 1⟩)], 1⟩ 0 3 = .ok 100 :=
  ⟨(unwrap_type_guard ⟨[(0, ⟨100, 3, 1⟩)], 1⟩ 5 3).1 (by decide),
   (unwrap_type_guard ⟨[(0, ⟨100, 3, 1⟩)], 1⟩ 0 2).2.1 ⟨100, 3, 1⟩ (by decide) (by decide),
   (unwrap_type_guard ⟨[(0, ⟨100, 3, 1⟩)], 1⟩ 0 3).2.2.1 ⟨100, 3, 1⟩ (by decide) rfl⟩

/-- C8: For every tag name with no registered constructor, `create` returns
the generic Element construction carrying the requested tag, owned by the
given document; `create` is total, so unknown-tag creation never fails. -/
theorem registry_create_unknown (tag : String) (doc : Nat)
    (h : registryLookup tag = none) :
    create tag doc = mkHTMLElement tag doc ∧
    (create tag doc).tagName = tag ∧
    (create tag doc).klass = .htmlElement ∧
    (create tag doc).ownerDoc = doc := by
  refine ⟨?_, ?_, ?_, ?_⟩ <;> simp [create, h, mkHTMLElement]

/-- Witness for C8: creating a "totally-unknown-tag" element succeeds and
yields a generic Element with that tag. -/
theorem registry_create_unknown_witness :
    create "totally-unknown-tag" 7 = mkHTMLElement "totally-unknown-tag" 7 ∧
    (create "totally-unknown-tag" 7).tagName = "totally-unknown-tag" :=
  ⟨(registry_create_unknown "totally-unknown-tag" 7 rfl).1,
   (registry_create_unknown "totally-unknown-tag" 7 rfl).2.1⟩

theorem registryLookup_cases (tag : String) :
    (tag = "html" ∧ registryLookup tag = some mkHTMLHtmlElement) ∨
    (tag = "div" ∧ registryLookup tag = some mkHTMLDivElement) ∨
    registryLookup tag = none := by
  by_cases h1 : tag = "html"
  · subst h1; exact Or.inl ⟨rfl, rfl⟩
  · by_cases h2 : tag = "div"
    · subst h2; exact Or.inr (Or.inl ⟨rfl, rfl⟩)
    · refine Or.inr (Or.inr ?_)
      have e1 : (("html" : String) == tag) = false := by
        rw [beq_eq_false_iff_ne]
        exact fun h => h1 h.symm
      have e2 : (("div" : String) == tag) = false := by
        rw [beq_eq_false_iff_ne]
        exact fun h => h2 h.symm
      simp [registryLookup, elementRegistry, List.find?, e1, e2]

/-- C7: For every tag name with a registered constructor, `create` invokes
exactly the registered constructor on the given document (producing an
Element of the registered subclass, logically parented to that document);
in particular `create "div" doc` yields an Element whose tag is "div". -/
theorem registry_create_registered (tag : String) (doc : Nat) (ctor : Nat → Element)
    (h : registryLookup tag = some ctor) :
    create tag doc = ctor doc ∧
    (create tag doc).ownerDoc = doc ∧
    (create "div" doc).tagName = "div" := by
  have hc : create tag doc = ctor doc := by simp [create, h]
  have hdiv : registryLookup "div" = some mkHTMLDivElement := rfl
  refine ⟨hc, ?_, by simp [create, hdiv, mkHTMLDivElement]⟩
  rcases registryLookup_cases tag with ⟨_, h2⟩ | ⟨_, h2⟩ | h2
  · rw [h] at h2
    rw [hc, Option.some.inj h2]
    rfl
  · rw [h] at h2
    rw [hc, Option.some.inj h2]
    rfl
  · rw [h] at h2
    cases h2

/-- Witness for C7: creating "div" under document 4 returns the registered
`HTMLDivElement` construction, owned by document 4. -/
theorem registry_create_registered_witness :
    create "div" 4 = mkHTMLDivElement 4 ∧ (create "div" 4).ownerDoc = 4 :=
  ⟨(registry_create_registered "div" 4 mkHTMLDivElement rfl).1,
   (registry_create_registered "div" 4 mkHTMLDivElement rfl).2.1⟩

theorem runAttrOps_fields (e : Element) (ops : List AttrOp) :
    (runAttrOps e ops).klass = e.klass ∧
    (runAttrOps e ops).tagName = e.tagName ∧
    (runAttrOps e ops).ownerDoc = e.ownerDoc ∧
    (runAttrOps e ops).attrs = runAttrList e.attrs ops := by
  induction ops generalizing e with
  | nil => exact ⟨rfl, rfl, rfl, rfl⟩
  | cons op rest ih =>
      cases op with
      | set n v =>
          have hstep := ih (applyAttrOp e (.set n v))
          simpa [runAttrOps, runAttrList, applyAttrOp, setAttribute] using hstep

/-- C10: An `HTMLHtmlElement` constructed from a Document is, apart from its
own Wrapper Type Info (its concrete class), the very HTMLElement
construction with tag "html" from the same Document; consequently every
inherited attribute operation sequence observes identical results
(getAttribute, tagName, ownerDoc) on both, while the two constructions'
Wrapper Type Info records differ.  Tree mutation and traversal act on node
ids and never consult the element class, so they cannot distinguish the two
either. -/
theorem html_html_element_refines_html_element (doc : Nat) (ops : List AttrOp) (n : String) :
    mkHTMLHtmlElement doc = { mkHTMLElement "html" doc with klass := .htmlHtmlElement } ∧
    getAttribute (runAttrOps (mkHTMLHtmlElement doc) ops) n
      = getAttribute (runAttrOps (mkHTMLElement "html" doc) ops) n ∧
    (runAttrOps (mkHTMLHtmlElement doc) ops).tagName
      = (runAttrOps (mkHTMLElement "html" doc) ops).tagName ∧
    (runAttrOps (mkHTMLHtmlElement doc) ops).ownerDoc
      = (runAttrOps (mkHTMLElement "html" doc) ops).ownerDoc ∧
    wrapperTypeInfoOf (mkHTMLHtmlElement doc).klass
      ≠ wrapperTypeInfoOf (mkHTMLElement "html" doc).klass := by
  obtain ⟨k1, t1, o1, a1⟩ := runAttrOps_fields (mkHTMLHtmlElement doc) ops
  obtain ⟨k2, t2, o2, a2⟩ := runAttrOps_fields (mkHTMLElement "html" doc) ops
  refine ⟨rfl, ?_, ?_, ?_,
    show wrapperTypeInfoOf .htmlHtmlElement ≠ wrapperTypeInfoOf .htmlElement from by decide⟩
  · unfold getAttribute
    rw [a1, a2]
    rfl
  · rw [t1, t2]
    rfl
  · rw [o1, o2]
    rfl

@[simp] theorem childrenOf_setChildren (t : Tree) (a : Nat) (l : List Nat) (n : Nat) :
    (setChildren t a l).childrenOf n = if n = a then l else t.childrenOf n := rfl

@[simp] theorem parentOf_setChildren (t : Tree) (a : Nat) (l : List Nat) :
    (setChildren t a l).parentOf = t.parentOf := rfl

@[simp] theorem childrenOf_setParent (t : Tree) (b : Nat) (v : Option Nat) :
    (setParent t b v).childrenOf = t.childrenOf := rfl

@[simp] theorem parentOf_setParent (t : Tree) (b : Nat) (v : Option Nat) (n : Nat) :
    (setParent t b v).parentOf n = if n = b then v else t.parentOf n := rfl

/-- C5: Appending a node to itself, or inserting any ancestor of a node as
that node's child (via appendChild or insertBefore), fails with
CycleRejected, and the failed operation leaves the tree — every child
sequence and every parent/child link — exactly as it was before the call. -/
theorem cycle_rejected_unchanged (t : Tree) (a b ref : Nat)
    (h : a = b ∨ isAncestor t b a = true) :
    appendChild t a b = .error .cycleRejected ∧
    insertBefore t a b ref = .error .cycleRejected ∧
    applyTreeOp t (.append a b) = t ∧
    applyTreeOp t (.insert a b ref) = t := by
  have hb : (a == b || isAncestor t b a) = true := by
    rcases h with h | h
    · simp [h]
    · simp [h]
  have h1 : appendChild t a b = .error .cycleRejected := by
    simp [appendChild, hb]
  have h2 : insertBefore t a b ref = .error .cycleRejected := by
    simp [insertBefore, hb]
  refine ⟨h1, h2, ?_, ?_⟩
  · simp [applyTreeOp, h1]
  · simp [applyTreeOp, h2]

/-- Witness for C5: a self-append is rejected, and appending the parent of
node 0 (node 1, an ancestor) as a child of node 0 is rejected. -/
theorem cycle_rejected_unchanged_witness :
    appendChild ⟨fun _ => [], fun _ => none, 1⟩ 0 0 = .error .cycleRejected ∧
    appendChild ⟨fun n => if n = 1 then [0] else [], fun n => if n = 0 then some 1 else none, 2⟩
      0 1 = .error .cycleRejected :=
  ⟨(cycle_rejected_unchanged ⟨fun _ => [], fun _ => none, 1⟩ 0 0 0 (Or.inl rfl)).1,
   (cycle_rejected_unchanged
      ⟨fun n => if n = 1 then [0] else [], fun n => if n = 0 then some 1 else none, 2⟩
      0 1 0 (Or.inr (by decide))).1⟩

/-- Counterexample to C6 as stated: with node 1 initially a child of node 2,
`appendChild 0 1` (which first detaches node 1 from node 2, per the
at-most-one-parent invariant) followed by `removeChild 0 1` leaves node 1's
parent back-reference at none, not at its original value (some 2), even
though node 1 is neither node 0 nor an ancestor of node 0. -/
theorem append_remove_round_trip_counterexample :
    (0 : Nat) ≠ 1 ∧
    isAncestor ⟨fun n => if n = 2 then [1] else [], fun n => if n = 1 then some 2 else none, 3⟩
      1 0 = false ∧
    ¬ ((runTree ⟨fun n => if n = 2 then [1] else [], fun n => if n = 1 then some 2 else none, 3⟩
          [.append 0 1, .remove 0 1]).parentOf 1 =
        (⟨fun n => if n = 2 then [1] else [], fun n => if n = 1 then some 2 else none, 3⟩ :
          Tree).parentOf 1) := by
  refine ⟨by decide, by decide, by decide⟩

/-- C6 (amended): For nodes A and B where B is not A, B is not an ancestor
of A, and B is initially detached (no parent and not among A's children),
`A.appendChild(B)` followed by `A.removeChild(B)` restores A's ordered
child sequence and B's parent back-reference to exactly their values
before the two operations. -/
theorem append_remove_round_trip (t : Tree) (a b : Nat)
    (hne : (a == b) = false) (hanc : isAncestor t b a = false)
    (hdet : t.parentOf b = none) (hmem : b ∉ t.childrenOf a) :
    ∃ t1 t2, appendChild t a b = .ok t1 ∧ removeChild t1 a b = .ok t2 ∧
      t2.childrenOf a = t.childrenOf a ∧ t2.parentOf b = t.parentOf b := by
  have hdetach : detach t b = t := by
    unfold detach
    rw [hdet]
  have happ : appendChild t a b = .ok
      (setParent (setChildren t a (List.append (t.childrenOf a) [b])) b (some a)) := by
    unfold appendChild
    rw [hne, hanc]
    simp [hdetach]
  set t1 := setParent (setChildren t a (List.append (t.childrenOf a) [b])) b (some a) with ht1
  have hch : t1.childrenOf a = List.append (t.childrenOf a) [b] := by
    simp [ht1]
  have hcont : (t1.childrenOf a).contains b = true := by
    rw [hch]
    simp
  have hrem : removeChild t1 a b = .ok
      (setParent (setChildren t1 a ((t1.childrenOf a).erase b)) b none) := by
    unfold removeChild
    rw [hcont]
    simp
  refine ⟨t1, _, happ, hrem, ?_, ?_⟩
  · show (setParent (setChildren t1 a ((t1.childrenOf a).erase b)) b none).childrenOf a
        = t.childrenOf a
    simp only [childrenOf_setParent, childrenOf_setChildren, if_pos rfl]
    rw [hch]
    show (t.childrenOf a ++ [b]).erase b = t.childrenOf a
    rw [List.erase_append_right _ hmem]
    simp
  · show (setParent (setChildren t1 a ((t1.childrenOf a).erase b)) b none).parentOf b
        = t.parentOf b
    simp [hdet]

/-- Witness for C6 (amended): appending detached node 1 to node 0 (which
already has child 2) and removing it again restores node 0's child
sequence [2] and node 1's absent parent. -/
theorem append_remove_round_trip_witness :
    ∃ t1 t2,
      appendChild ⟨fun n => if n = 0 then [2] else [], fun n => if n = 2 then some 0 else none, 3⟩
        0 1 = .ok t1 ∧
      removeChild t1 0 1 = .ok t2 ∧
      t2.childrenOf 0 =
        (⟨fun n => if n = 0 then [2] else [], fun n => if n = 2 then some 0 else none, 3⟩ :
          Tree).childrenOf 0 ∧
      t2.parentOf 1 =
        (⟨fun n => if n = 0 then [2] else [], fun n => if n = 2 then some 0 else none, 3⟩ :
          Tree).parentOf 1 :=
  append_remove_round_trip
    ⟨fun n => if n = 0 then [2] else [], fun n => if n = 2 then some 0 else none, 3⟩
    0 1 (by decide) (by decide) (by decide) (by decide)

/-- Witness for C10 at document 0, one setAttribute operation and one
getAttribute lookup. -/
theorem html_html_element_refines_html_element_witness :
    mkHTMLHtmlElement 0 = { mkHTMLElement "html" 0 with klass := .htmlHtmlElement } ∧
    getAttribute (runAttrOps (mkHTMLHtmlElement 0) [.set "id" "x"]) "id"
      = getAttribute (runAttrOps (mkHTMLElement "html" 0) [.set "id" "x"]) "id" ∧
    (runAttrOps (mkHTMLHtmlElement 0) [.set "id" "x"]).tagName
      = (runAttrOps (mkHTMLElement "html" 0) [.set "id" "x"]).tagName ∧
    (runAttrOps (mkHTMLHtmlElement 0) [.set "id" "x"]).ownerDoc
      = (runAttrOps (mkHTMLElement "html" 0) [.set "id" "x"]).ownerDoc ∧
    wrapperTypeInfoOf (mkHTMLHtmlElement 0).klass
      ≠ wrapperTypeInfoOf (mkHTMLElement "html" 0).klass :=
  html_html_element_refines_html_element 0 [.set "id" "x"] "id"

theorem mem_insertBeforeList (l : List Nat) (ref b c : Nat) :
    c ∈ insertBeforeList l ref b ↔ c ∈ l ∨ c = b := by
  induction l with
  | nil => simp [insertBeforeList]
  | cons x xs ih =>
      by_cases hx : (x == ref) = true
      · simp only [insertBeforeList, hx, if_pos]
        simp
        tauto
      · simp only [insertBeforeList, hx, Bool.false_eq_true, if_false]
        simp [ih]
        tauto

theorem nodup_insertBeforeList (l : List Nat) (ref b : Nat) (hn : l.Nodup) (hb : b ∉ l) :
    (insertBeforeList l ref b).Nodup := by
  induction l with
  | nil => simp [insertBeforeList]
  | cons x xs ih =>
      rw [List.nodup_cons] at hn
      rw [List.mem_cons] at hb
      push_neg at hb
      by_cases hx : (x == ref) = true
      · simp only [insertBeforeList, hx, if_pos]
        rw [List.nodup_cons, List.nodup_cons]
        refine ⟨?_, hn.1, hn.2⟩
        rw [List.mem_cons]
        push_neg
        exact hb
      · simp only [insertBeforeList, hx, Bool.false_eq_true, if_false]
        rw [List.nodup_cons]
        refine ⟨?_, ih hn.2 hb.2⟩
        rw [mem_insertBeforeList]
        push_neg
        exact ⟨hn.1, fun e => hb.1 e.symm⟩

theorem wf_detach (t : Tree) (b : Nat) (h : WF t) :
    WF (detach t b) ∧ (detach t b).parentOf b = none := by
  obtain ⟨h1, h2⟩ := h
  cases hp : t.parentOf b with
  | none =>
      have he : detach t b = t := by
        unfold detach
        rw [hp]
      rw [he]
      exact ⟨⟨h1, h2⟩, hp⟩
  | some p =>
      refine ⟨⟨?_, ?_⟩, ?_⟩
      · intro q c
        simp only [detach, hp, childrenOf_setParent, childrenOf_setChildren, parentOf_setParent]
        by_cases hq : q = p
        · by_cases hc : c = b
          · simp [hq, hc, List.Nodup.mem_erase_iff (h2 p)]
          · simp [hq, hc, List.Nodup.mem_erase_iff (h2 p), h1 p c]
        · by_cases hc : c = b
          · simp [hq, hc, h1 q b, hp]
            exact fun e => hq e.symm
          · simp [hq, hc]
            exact h1 q c
      · intro q
        simp only [detach, hp, childrenOf_setParent, childrenOf_setChildren]
        by_cases hq : q = p
        · simp [hq]
          exact (h2 p).erase b
        · simp [hq]
          exact h2 q
      · simp [detach, hp]

theorem wf_attach_append (t : Tree) (a b : Nat) (h : WF t) (hpb : t.parentOf b = none) :
    WF (setParent (setChildren t a (List.append (t.childrenOf a) [b])) b (some a)) := by
  obtain ⟨h1, h2⟩ := h
  have hnot : ∀ q, b ∉ t.childrenOf q := by
    intro q hmem
    rw [h1 q b, hpb] at hmem
    cases hmem
  constructor
  · intro q c
    simp only [childrenOf_setParent, childrenOf_setChildren, parentOf_setParent]
    by_cases hq : q = a
    · by_cases hc : c = b
      · simp [hq, hc]
      · simp [hq, hc, h1 a c]
    · by_cases hc : c = b
      · simp [hq, hc, hnot q]
        exact fun e => hq e.symm
      · simp [hq, hc]
        exact h1 q c
  · intro q
    simp only [childrenOf_setParent, childrenOf_setChildren]
    by_cases hq : q = a
    · simp [hq, List.nodup_append]
      exact ⟨h2 a, hnot a⟩
    · simp [hq]
      exact h2 q

theorem wf_attach_insert (t : Tree) (a b ref : Nat) (h : WF t) (hpb : t.parentOf b = none) :
    WF (setParent (setChildren t a (insertBeforeList (t.childrenOf a) ref b)) b (some a)) := by
  obtain ⟨h1, h2⟩ := h
  have hnot : ∀ q, b ∉ t.childrenOf q := by
    intro q hmem
    rw [h1 q b, hpb] at hmem
    cases hmem
  constructor
  · intro q c
    simp only [childrenOf_setParent, childrenOf_setChildren, parentOf_setParent]
    by_cases hq : q = a
    · by_cases hc : c = b
      · simp [hq, hc, mem_insertBeforeList]
      · simp [hq, hc, mem_insertBeforeList, h1 a c]
    · by_cases hc : c = b
      · simp [hq, hc, hnot q]
        exact fun e => hq e.symm
      · simp [hq, hc]
        exact h1 q c
  · intro q
    simp only [childrenOf_setParent, childrenOf_setChildren]
    by_cases hq : q = a
    · simp [hq]
      exact nodup_insertBeforeList (t.childrenOf a) ref b (h2 a) (hnot a)
    · simp [hq]
      exact h2 q

theorem wf_appendChild (t t' : Tree) (a b : Nat) (h : WF t)
    (hok : appendChild t a b = .ok t') : WF t' := by
  unfold appendChild at hok
  by_cases hc : (a == b || isAncestor t b a) = true
  · rw [if_pos hc] at hok
    cases hok
  · rw [if_neg hc] at hok
    simp only [Except.ok.injEq] at hok
    obtain ⟨hwf, hpb⟩ := wf_detach t b h
    rw [← hok]
    exact wf_attach_append (detach t b) a b hwf hpb

theorem wf_removeChild (t t' : Tree) (a b : Nat) (h : WF t)
    (hok : removeChild t a b = .ok t') : WF t' := by
  obtain ⟨h1, h2⟩ := h
  unfold removeChild at hok
  by_cases hc : ((t.childrenOf a).contains b) = true
  · rw [if_pos hc] at hok
    simp only [Except.ok.injEq] at hok
    have hpb : t.parentOf b = some a := by
      rw [← h1 a b]
      simpa using hc
    rw [← hok]
    constructor
    · intro q c
      simp only [childrenOf_setParent, childrenOf_setChildren, parentOf_setParent]
      by_cases hq : q = a
      · by_cases hcb : c = b
        · simp [hq, hcb, List.Nodup.mem_erase_iff (h2 a)]
        · simp [hq, hcb, List.Nodup.mem_erase_iff (h2 a), h1 a c]
      · by_cases hcb : c = b
        · simp [hq, hcb, h1 q b, hpb]
          exact fun e => hq e.symm
        · simp [hq, hcb]
          exact h1 q c
    · intro q
      simp only [childrenOf_setParent, childrenOf_setChildren]
      by_cases hq : q = a
      · simp [hq]
        exact (h2 a).erase b
      · simp [hq]
        exact h2 q
  · rw [if_neg hc] at hok
    cases hok

theorem wf_insertBefore (t t' : Tree) (a b ref : Nat) (h : WF t)
    (hok : insertBefore t a b ref = .ok t') : WF t' := by
  unfold insertBefore at hok
  by_cases hc1 : (a == b || isAncestor t b a) = true
  · rw [if_pos hc1] at hok
    cases hok
  · rw [if_neg hc1] at hok
    by_cases hc2 : (!(t.childrenOf a).contains ref) = true
    · rw [if_pos hc2] at hok
      cases hok
    · rw [if_neg hc2] at hok
      by_cases hc3 : (b == ref) = true
      · rw [if_pos hc3] at hok
        simp only [Except.ok.injEq] at hok
        rw [← hok]
        exact h
      · rw [if_neg hc3] at hok
        simp only [Except.ok.injEq] at hok
        obtain ⟨hwf, hpb⟩ := wf_detach t b h
        rw [← hok]
        exact wf_attach_insert (detach t b) a b ref hwf hpb

theorem wf_applyTreeOp (t : Tree) (op : TreeOp) (h : WF t) : WF (applyTreeOp t op) := by
  cases op with
  | append a b =>
      cases hab : appendChild t a b with
      | ok t1 =>
          have he : applyTreeOp t (.append a b) = t1 := by simp [applyTreeOp, hab]
          rw [he]
          exact wf_appendChild t t1 a b h hab
      | error e =>
          have he : applyTreeOp t (.append a b) = t := by simp [applyTreeOp, hab]
          rw [he]
          exact h
  | remove a b =>
      cases hab : removeChild t a b with
      | ok t1 =>
          have he : applyTreeOp t (.remove a b) = t1 := by simp [applyTreeOp, hab]
          rw [he]
          exact wf_removeChild t t1 a b h hab
      | error e =>
          have he : applyTreeOp t (.remove a b) = t := by simp [applyTreeOp, hab]
          rw [he]
          exact h
  | insert a b ref =>
      cases hab : insertBefore t a b ref with
      | ok t1 =>
          have he : applyTreeOp t (.insert a b ref) = t1 := by simp [applyTreeOp, hab]
          rw [he]
          exact wf_insertBefore t t1 a b ref h hab
      | error e =>
          have he : applyTreeOp t (.insert a b ref) = t := by simp [applyTreeOp, hab]
          rw [he]
          exact h

theorem wf_runTree (t : Tree) (ops : List TreeOp) (h : WF t) : WF (runTree t ops) := by
  induction ops generalizing t with
  | nil => exact h
  | cons op rest ih =>
      show WF (runTree (applyTreeOp t op) rest)
      exact ih (applyTreeOp t op) (wf_applyTreeOp t op h)

/-- C9: After every sequence of tree mutation operations (appendChild,
removeChild, insertBefore) starting from a well-formed tree, the tree is
still well-formed, every node occurs in at most one child sequence (at most
one parent), and a successful removeChild severs the removed node's parent
back-reference (sets it to none). -/
theorem tree_invariants (t : Tree) (ops : List TreeOp) (h : WF t) :
    WF (runTree t ops) ∧
    (∀ p1 p2 c, c ∈ (runTree t ops).childrenOf p1 → c ∈ (runTree t ops).childrenOf p2 →
      p1 = p2) ∧
    (∀ a b t', removeChild (runTree t ops) a b = .ok t' → t'.parentOf b = none) := by
  have hwf := wf_runTree t ops h
  refine ⟨hwf, ?_, ?_⟩
  · intro p1 p2 c hm1 hm2
    have e1 := (hwf.1 p1 c).mp hm1
    have e2 := (hwf.1 p2 c).mp hm2
    rw [e1] at e2
    exact Option.some.inj e2
  · intro a b t' hok
    unfold removeChild at hok
    by_cases hc : (((runTree t ops).childrenOf a).contains b) = true
    · rw [if_pos hc] at hok
      simp only [Except.ok.injEq] at hok
      rw [← hok]
      simp
    · rw [if_neg hc] at hok
      cases hok

/-- Witness for C9: starting from the well-formed empty forest on nodes
0..1 and appending node 1 under node 0, the invariants hold for the
resulting tree. -/
theorem tree_invariants_witness :
    WF (runTree ⟨fun _ => [], fun _ => none, 2⟩ [.append 0 1]) ∧
    (∀ p1 p2 c, c ∈ (runTree ⟨fun _ => [], fun _ => none, 2⟩ [.append 0 1]).childrenOf p1 →
      c ∈ (runTree ⟨fun _ => [], fun _ => none, 2⟩ [.append 0 1]).childrenOf p2 → p1 = p2) ∧
    (∀ a b t', removeChild (runTree ⟨fun _ => [], fun _ => none, 2⟩ [.append 0 1]) a b = .ok t' →
      t'.parentOf b = none) :=
  tree_invariants ⟨fun _ => [], fun _ => none, 2⟩ [.append 0 1]
    ⟨fun p c => by simp, fun p => by simp⟩

theorem bind_table_inv_step (p g : Nat) (t : HandleTable) (c : Nat) (op : BindOp)
    (h : TableInv p g t c) : TableInv p g (bindStep p g t op) (netStep c op) := by
  rcases h with ⟨hc, he⟩ | ⟨hc, h0, he⟩
  · subst hc
    cases op with
    | wrap =>
        refine Or.inr ⟨Nat.one_pos, t.nextHandle, ?_⟩
        simp [bindStep, wrap, handleFor, he, netStep]
    | retain =>
        refine Or.inl ⟨rfl, ?_⟩
        simp [bindStep, handleFor, he]
    | release =>
        refine Or.inl ⟨rfl, ?_⟩
        simp [bindStep, handleFor, he]
  · cases op with
    | wrap =>
        have hstep : bindStep p g t .wrap = t := by
          simp [bindStep, wrap, handleFor, he]
        have hnet : netStep c .wrap = c := by
          simp [netStep, hc.ne']
        rw [hstep, hnet]
        exact Or.inr ⟨hc, h0, he⟩
    | retain =>
        have hstep : (bindStep p g t .retain).entries = [(h0, ⟨p, g, c + 1⟩)] := by
          simp [bindStep, handleFor, he, retain, entryFor]
        have hnet : netStep c .retain = c + 1 := by
          simp [netStep, hc.ne']
        rw [hnet]
        exact Or.inr ⟨Nat.succ_pos c, h0, hstep⟩
    | release =>
        by_cases hc1 : c ≤ 1
        · have hceq : c = 1 := by omega
          subst hceq
          refine Or.inl ⟨by simp [netStep], ?_⟩
          simp [bindStep, handleFor, he, release, entryFor]
        · refine Or.inr ⟨by simp [netStep]; omega, h0, ?_⟩
          simp [bindStep, handleFor, he, release, entryFor, hc1, netStep]

theorem bind_table_inv_run (p g : Nat) (ops : List BindOp) :
    TableInv p g (runBind p g emptyTable ops) (netCountRun ops) := by
  suffices hgen : ∀ t c, TableInv p g t c →
      TableInv p g (ops.foldl (bindStep p g) t) (ops.foldl netStep c) by
    exact hgen emptyTable 0 (Or.inl ⟨rfl, rfl⟩)
  induction ops with
  | nil => exact fun t c h => h
  | cons op rest ih =>
      intro t c h
      exact ih (bindStep p g t op) (netStep c op) (bind_table_inv_step p g t c op h)

/-- C3 (amended): Starting from an empty handle table, after every finite
sequence of wrap/retain/release operations on the same Node, a handle table
entry for that Node exists if and only if the net reference count of the
sequence is greater than zero, where the net count is the operational one:
the first wrap (or a wrap following removal) sets the count to 1, a wrap
while an entry is live returns the existing handle without changing the
count, retain/release on a live entry add/subtract one, and retain/release
presented with a stale handle (no live entry) fail without changing the
count.  When the net count is zero the entry has been removed (the table is
empty), so the handle is invalid. -/
theorem handle_entry_iff_positive_count (p g : Nat) (ops : List BindOp) :
    ((handleFor (runBind p g emptyTable ops) p).isSome ↔ 0 < netCountRun ops) ∧
    (netCountRun ops = 0 → (runBind p g emptyTable ops).entries = []) := by
  rcases bind_table_inv_run p g ops with ⟨hc, he⟩ | ⟨hc, h0, he⟩
  · constructor
    · rw [hc]
      simp [handleFor, he]
    · exact fun _ => he
  · constructor
    · simp [handleFor, he, hc]
    · intro h0'
      omega

/-- Witness for C3 (amended) at the sequence wrap, retain, release, release:
its net count is zero, so no entry remains and the table is empty. -/
theorem handle_entry_iff_positive_count_witness :
    (runBind 0 7 emptyTable [.wrap, .retain, .release, .release]).entries = [] ∧
    ((handleFor (runBind 0 7 emptyTable [.wrap, .retain, .release, .release]) 0).isSome ↔
      0 < netCountRun [.wrap, .retain, .release, .release]) :=
  ⟨(handle_entry_iff_positive_count 0 7 [.wrap, .retain, .release, .release]).2 (by decide),
   (handle_entry_iff_positive_count 0 7 [.wrap, .retain, .release, .release]).1⟩

/-- Counterexample to C3 as stated: for the sequence wrap, release, retain,
the claim's arithmetic net count (1 from the initial wrap, +1 per retain,
-1 per release) is 1 > 0, yet no handle table entry exists after the
sequence — the release removed the entry, so the subsequent retain found a
stale handle and failed without resurrecting the entry. -/
theorem handle_count_claim_counterexample :
    ¬ (((handleFor (runBind 0 7 emptyTable [.wrap, .release, .retain]) 0).isSome) ↔
        0 < claimNetCount [.wrap, .release, .retain]) := by
  decide

end Bridge
